import Mathlib

/-!
Shallow embedding of `matrix_multiplicator.py` and verification of its
specification.

Modelling conventions:
* A Python matrix (a list of lists of floats) is `List (List α)` for an
  element type `α` carrying `Zero`, `Add`, `Mul`.  Keeping `α` abstract with no
  algebraic laws captures the spec's "bit-for-bit" claims: two computations are
  proved equal only when they perform the same operations in the same order,
  exactly as IEEE-754 determinism requires.
* Python list indexing `A[i][k]` is modelled with `List.getD`; every theorem
  below constrains its inputs so that all accesses are in bounds, where Python
  indexing is total.
* A `ValueError` / `TypeError` raised by the code is an `Except.error` carrying
  the spec's error taxonomy name for that raise site.
* The worker pool (`multiprocessing.Pool`) executes `pool.map` deterministically
  (`pool.map` preserves task order), so it is embedded as `List.map`.
-/

namespace MatrixMultiplicator

/-- Spec error taxonomy (section 7) for the errors the multiply entry points
raise: `EmptyOperand` (line 50), `DimensionMismatch` (line 52) and
`InvalidConfiguration` (the `Pool` constructor rejecting a bad worker count). -/
inductive MulError where
  | emptyOperand
  | dimensionMismatch
  | invalidConfiguration
deriving DecidableEq

/-- The `num_processes` argument of `multiply_matrices` (line 44):
`Python None` (the default), an integer value, or a value of non-integer type
(for which `Pool` fails with a `TypeError`). -/
inductive NumProcesses where
  | default
  | int (n : Int)
  | nonInteger
deriving DecidableEq

/-- Models the resolution of the worker count: lines 61-62 substitute
`multiprocessing.cpu_count()` for `None`, and `multiprocessing.Pool`
(line 65) rejects a count below 1 (`ValueError`) or of non-integer type
(`TypeError`) before starting any worker; both rejections are the spec's
`InvalidConfiguration`.  `cpu_count` stands for the positive integer returned
by `multiprocessing.cpu_count()`. -/
def pool_processes (cpu_count : Nat) : NumProcesses → Except MulError Nat
  | .default => .ok cpu_count
  | .int n => if n < 1 then .error .invalidConfiguration else .ok n.toNat
  | .nonInteger => .error .invalidConfiguration

/-- A worker-count argument accepted by `Pool`: the default, or a positive
integer. -/
def valid_num_processes : NumProcesses → Bool
  | .default => true
  | .int n => decide (1 ≤ n)
  | .nonInteger => false

/-- Embeds `compute_element` (lines 32-42): one cell task `(i, j, A, B)`
computes `sum over k < len(A[0]) of A[i][k] * B[k][j]`, accumulating from
`k = 0` upward starting at `0`, and returns the triple `(i, j, result)`. -/
def compute_element {α : Type} [Zero α] [Add α] [Mul α]
    (i j : Nat) (A B : List (List α)) : Nat × Nat × α :=
  let N := (A.headD []).length
  (i, j, (List.range N).foldl
    (fun result k => result + (A.getD i []).getD k 0 * (B.getD k []).getD j 0) 0)

/-- The scalar computed for output cell `(i, j)`. -/
def cell_value {α : Type} [Zero α] [Add α] [Mul α]
    (i j : Nat) (A B : List (List α)) : α :=
  (compute_element i j A B).2.2

/-- Embeds the task list of line 58 / line 110:
`[(i, j) for i in range(rows_A) for j in range(cols_B)]`. -/
def tasks_grid (rows_A cols_B : Nat) : List (Nat × Nat) :=
  (List.range rows_A).flatMap fun i => (List.range cols_B).map fun j => (i, j)

/-- Embeds the aggregation write `C[i][j] = value` (line 71 / line 122). -/
def set_cell {α : Type} (C : List (List α)) (i j : Nat) (v : α) :
    List (List α) :=
  C.set i ((C.getD i []).set j v)

/-- Embeds `multiply_matrices` (lines 44-73): validate the operands, build the
cell-task list, resolve and validate the worker count (the `Pool` constructor,
reached before any task is dispatched to a worker), compute every cell with
`pool.map`, and aggregate the results into a zero-initialised
`rows_A × cols_B` output matrix. -/
def multiply_matrices {α : Type} [Zero α] [Add α] [Mul α] (cpu_count : Nat)
    (A B : List (List α)) (num_processes : NumProcesses) :
    Except MulError (List (List α)) :=
  if A.isEmpty || B.isEmpty then .error .emptyOperand
  else if (A.headD []).length ≠ B.length then .error .dimensionMismatch
  else
    let rows_A := A.length
    let cols_B := (B.headD []).length
    let tasks := tasks_grid rows_A cols_B
    match pool_processes cpu_count num_processes with
    | .error e => .error e
    | .ok _ =>
      let results := tasks.map fun t => compute_element t.1 t.2 A B
      let C0 : List (List α) := List.replicate rows_A (List.replicate cols_B 0)
      .ok (results.foldl (fun C r => set_cell C r.1 r.2.1 r.2.2) C0)

/-- Reference implementation written from the spec's words (section 4.2 and
section 8): the naive sequential triple-nested-loop product, with per-cell
summation over `k` proceeding from `k = 0` upward. -/
def naive_triple_loop {α : Type} [Zero α] [Add α] [Mul α]
    (A B : List (List α)) : List (List α) :=
  (List.range A.length).map fun i =>
    (List.range (B.headD []).length).map fun j =>
      (List.range (A.headD []).length).foldl
        (fun acc k => acc + (A.getD i []).getD k 0 * (B.getD k []).getD j 0) 0

lemma isEmpty_false_of_ne_nil {α : Type} {l : List α} (h : l ≠ []) :
    l.isEmpty = false := by
  cases l with
  | nil => exact absurd rfl h
  | cons a t => rfl

lemma flatMap_nil_fun {γ δ : Type} (l : List γ) :
    (l.flatMap fun _ => ([] : List δ)) = [] := by
  induction l <;> simp [*]

/-- C5: a zero-row operand on either side is rejected with `EmptyOperand`
(lines 49-50, `if not A or not B`), whatever the worker-count argument. -/
theorem claim_C5_empty_operand {α : Type} [Zero α] [Add α] [Mul α]
    (cpu_count : Nat) (A B : List (List α)) (np : NumProcesses)
    (h : A = [] ∨ B = []) :
    multiply_matrices cpu_count A B np = .error .emptyOperand := by
  rcases h with rfl | rfl <;> simp [multiply_matrices]

theorem claim_C5_empty_operand_witness :
    multiply_matrices 4 ([] : List (List Int)) [[1]] .default
      = .error .emptyOperand :=
  claim_C5_empty_operand 4 [] [[1]] .default (Or.inl rfl)

/-- C4: non-empty operands with disagreeing inner dimensions are rejected with
`DimensionMismatch` (lines 51-52), before the task list of line 58 is built and
with no output produced, whatever the worker-count argument. -/
theorem claim_C4_dimension_mismatch {α : Type} [Zero α] [Add α] [Mul α]
    (cpu_count : Nat) (A B : List (List α)) (np : NumProcesses)
    (hA : A ≠ []) (hB : B ≠ []) (hdim : (A.headD []).length ≠ B.length) :
    multiply_matrices cpu_count A B np = .error .dimensionMismatch := by
  rw [multiply_matrices, isEmpty_false_of_ne_nil hA, isEmpty_false_of_ne_nil hB,
    if_neg (by decide), if_pos hdim]

theorem claim_C4_dimension_mismatch_witness :
    multiply_matrices 4 ([[1]] : List (List Int)) [[1], [2]] .default
      = .error .dimensionMismatch :=
  claim_C4_dimension_mismatch 4 [[1]] [[1], [2]] .default
    (by decide) (by decide) (by decide)

/-- C3: with valid operands, a worker-count override that is not a positive
integer makes the multiply fail with `InvalidConfiguration`: the rejection
happens in the `Pool` constructor (line 65), synchronously, before `pool.map`
dispatches any task and before any worker runs. -/
theorem claim_C3_invalid_configuration {α : Type} [Zero α] [Add α] [Mul α]
    (cpu_count : Nat) (A B : List (List α)) (np : NumProcesses)
    (hA : A ≠ []) (hB : B ≠ []) (hdim : (A.headD []).length = B.length)
    (hnp : valid_num_processes np = false) :
    multiply_matrices cpu_count A B np = .error .invalidConfiguration := by
  rw [multiply_matrices, isEmpty_false_of_ne_nil hA, isEmpty_false_of_ne_nil hB,
    if_neg (by decide), if_neg (not_not_intro hdim)]
  cases np with
  | default => simp [valid_num_processes] at hnp
  | int n =>
    simp only [valid_num_processes, decide_eq_false_iff_not, not_le] at hnp
    simp [pool_processes, hnp]
  | nonInteger => simp [pool_processes]

theorem claim_C3_invalid_configuration_witness :
    multiply_matrices 4 ([[1]] : List (List Int)) [[2]] (.int 0)
      = .error .invalidConfiguration :=
  claim_C3_invalid_configuration 4 [[1]] [[2]] (.int 0)
    (by decide) (by decide) (by decide) (by decide)

/-- C10: the emptiness check of line 49 rejects only zero-row operands, never
zero-column ones: for any `A` with at least one row and exactly one column and
`B = [[]]` (one row, zero columns), `multiply_matrices` raises no error and
returns `rows(A)` rows of length zero, violating the Matrix non-emptiness
invariant of the data model. -/
theorem claim_C10_zero_column_hole {α : Type} [Zero α] [Add α] [Mul α]
    (cpu_count : Nat) (A : List (List α)) (np : NumProcesses)
    (hA : A ≠ []) (hAr : ∀ r ∈ A, r.length = 1)
    (hnp : valid_num_processes np = true) :
    multiply_matrices cpu_count A ([[]] : List (List α)) np
      = .ok (List.replicate A.length []) := by
  have hhead : (A.headD []).length = 1 := by
    cases A with
    | nil => exact absurd rfl hA
    | cons r t => exact hAr r (List.mem_cons_self r t)
  have hpool : ∃ k, pool_processes cpu_count np = .ok k := by
    cases np with
    | default => exact ⟨cpu_count, rfl⟩
    | int n =>
      simp only [valid_num_processes, decide_eq_true_eq] at hnp
      exact ⟨n.toNat, by simp [pool_processes, not_lt.mpr hnp]⟩
    | nonInteger => simp [valid_num_processes] at hnp
  obtain ⟨k, hk⟩ := hpool
  rw [multiply_matrices, isEmpty_false_of_ne_nil hA, if_neg (by simp),
    if_neg (not_not_intro (by rw [hhead]; rfl)), hk]
  simp [tasks_grid, flatMap_nil_fun]

theorem claim_C10_zero_column_hole_witness :
    multiply_matrices 4 ([[5]] : List (List Int)) [[]] .default
      = .ok [[]] :=
  claim_C10_zero_column_hole 4 [[5]] .default
    (by decide) (by decide) (by decide)

lemma getD_set_self {β : Type} (C : List β) (i : Nat) (r d : β)
    (h : i < C.length) : (C.set i r).getD i d = r := by
  rw [List.getD_eq_getElem?_getD, List.getElem?_set, if_pos rfl, if_pos h]
  rfl

lemma getD_set_ne {β : Type} (C : List β) {i j : Nat} (r d : β) (h : i ≠ j) :
    (C.set i r).getD j d = C.getD j d := by
  rw [List.getD_eq_getElem?_getD, List.getElem?_set, if_neg h,
    ← List.getD_eq_getElem?_getD]

lemma set_getD_self {β : Type} (C : List β) (i : Nat) (d : β)
    (h : i < C.length) : C.set i (C.getD i d) = C := by
  apply List.ext_getElem?
  intro j
  rw [List.getElem?_set]
  by_cases hij : i = j
  · subst hij
    rw [if_pos rfl, if_pos h, List.getD_eq_getElem?_getD,
      List.getElem?_eq_getElem h]
    rfl
  · rw [if_neg hij]

lemma take_set_succ {β : Type} (l : List β) (i : Nat) (a : β)
    (h : i < l.length) : (l.set i a).take (i + 1) = l.take i ++ [a] := by
  rw [List.set_eq_take_append_cons_drop, if_pos h]
  have hlen : (l.take i).length = i := by
    rw [List.length_take]
    omega
  rw [show i + 1 = (l.take i).length + 1 by rw [hlen], List.take_append]
  rfl

/-- Writing `g j` into position `j` of a row, for `j` running over
`range' s n`, rebuilds the row past position `s` as a `map`. -/
lemma foldl_set_range' {β : Type} (g : Nat → β) :
    ∀ (n s : Nat) (r : List β), r.length = s + n →
    (List.range' s n).foldl (fun acc j => acc.set j (g j)) r
      = r.take s ++ (List.range' s n).map g := by
  intro n
  induction n with
  | zero =>
    intro s r h
    simp only [List.range'_zero, List.foldl_nil, List.map_nil, List.append_nil]
    have hs : s = r.length := by omega
    rw [hs, List.take_length]
  | succ n ih =>
    intro s r h
    rw [List.range'_succ]
    simp only [List.foldl_cons, List.map_cons]
    rw [ih (s + 1) (r.set s (g s)) (by rw [List.length_set, h]; omega)]
    rw [take_set_succ r s (g s) (by omega), List.append_assoc]
    rfl

lemma foldl_set_range {β : Type} (g : Nat → β) (n : Nat) (r : List β)
    (h : r.length = n) :
    (List.range n).foldl (fun acc j => acc.set j (g j)) r
      = (List.range n).map g := by
  rw [List.range_eq_range']
  rw [foldl_set_range' g n 0 r (by omega)]
  simp

/-- A fold of writes that all target row `i` factors through a single
row update. -/
lemma foldl_set_cell_row {β : Type} (g : Nat → β) :
    ∀ (js : List Nat) (C : List (List β)) (i : Nat), i < C.length →
    js.foldl (fun D j => D.set i ((D.getD i []).set j (g j))) C
      = C.set i (js.foldl (fun row j => row.set j (g j)) (C.getD i [])) := by
  intro js
  induction js with
  | nil =>
    intro C i h
    exact (set_getD_self C i [] h).symm
  | cons j js ih =>
    intro C i h
    simp only [List.foldl_cons]
    rw [ih (C.set i ((C.getD i []).set j (g j))) i (by rw [List.length_set]; exact h)]
    rw [getD_set_self _ _ _ _ h, List.set_set]

/-- Row-by-row aggregation over zero rows produces the `map`-of-`map` matrix. -/
lemma foldl_rows {β : Type} [Zero β] (f : Nat → Nat → β) (n : Nat) :
    ∀ (m s : Nat) (C : List (List β)), C.length = s + m →
    (∀ i, s ≤ i → i < C.length → C.getD i [] = List.replicate n 0) →
    (List.range' s m).foldl
      (fun D i => (List.range n).foldl
        (fun D j => D.set i ((D.getD i []).set j (f i j))) D) C
      = C.take s ++ (List.range' s m).map fun i => (List.range n).map (f i) := by
  intro m
  induction m with
  | zero =>
    intro s C h hrep
    simp only [List.range'_zero, List.foldl_nil, List.map_nil, List.append_nil]
    have hs : s = C.length := by omega
    rw [hs, List.take_length]
  | succ m ih =>
    intro s C h hrep
    rw [List.range'_succ]
    simp only [List.foldl_cons, List.map_cons]
    have hs : s < C.length := by omega
    rw [foldl_set_cell_row (f s) (List.range n) C s hs]
    rw [hrep s (le_refl s) hs]
    rw [foldl_set_range (f s) n (List.replicate n 0) (by simp)]
    have hrep' : ∀ i, s + 1 ≤ i →
        i < (C.set s ((List.range n).map (f s))).length →
        (C.set s ((List.range n).map (f s))).getD i [] = List.replicate n 0 := by
      intro i hi hlen
      rw [List.length_set] at hlen
      rw [getD_set_ne C _ _ (by omega : s ≠ i)]
      exact hrep i (by omega) hlen
    rw [ih (s + 1) (C.set s ((List.range n).map (f s)))
      (by rw [List.length_set]; omega) hrep']
    rw [take_set_succ C s _ hs, List.append_assoc]
    rfl

lemma foldl_flatMap {β γ δ : Type} (l : List γ) (h : γ → List δ)
    (g : β → δ → β) (a : β) :
    (l.flatMap h).foldl g a = l.foldl (fun acc x => (h x).foldl g acc) a := by
  induction l generalizing a with
  | nil => rfl
  | cons x xs ih => rw [List.flatMap_cons, List.foldl_append, List.foldl_cons, ih]

/-- The aggregation loop of lines 69-71: folding the cell writes over the
row-major task grid, starting from the zero-initialised output, yields exactly
the matrix whose `(i, j)` entry is `f i j`. -/
lemma aggregate_tasks_grid {β : Type} [Zero β] (m n : Nat) (f : Nat → Nat → β) :
    (tasks_grid m n).foldl (fun C t => set_cell C t.1 t.2 (f t.1 t.2))
      (List.replicate m (List.replicate n 0))
      = (List.range m).map fun i => (List.range n).map (f i) := by
  unfold tasks_grid
  rw [foldl_flatMap]
  simp only [List.foldl_map, set_cell]
  have hrep : ∀ i, 0 ≤ i →
      i < (List.replicate m (List.replicate n (0 : β))).length →
      (List.replicate m (List.replicate n (0 : β))).getD i []
        = List.replicate n 0 := by
    intro i _ hlen
    rw [List.length_replicate] at hlen
    rw [List.getD_eq_getElem?_getD, List.getElem?_replicate, if_pos hlen]
    rfl
  rw [List.range_eq_range' m]
  rw [foldl_rows f n m 0 _ (by simp) hrep]
  simp

lemma pool_processes_ok (cpu_count : Nat) (np : NumProcesses)
    (h : valid_num_processes np = true) :
    ∃ k, pool_processes cpu_count np = .ok k := by
  cases np with
  | default => exact ⟨cpu_count, rfl⟩
  | int n =>
    simp only [valid_num_processes, decide_eq_true_eq] at h
    exact ⟨n.toNat, by simp [pool_processes, not_lt.mpr h]⟩
  | nonInteger => simp [valid_num_processes] at h

/-- Folding the per-cell writes of the task triples over the zero-initialised
output matrix rebuilds the naive triple-loop product. -/
lemma aggregate_triples {α : Type} [Zero α] [Add α] [Mul α]
    (A B : List (List α)) (g : Nat × Nat → Nat × Nat × α)
    (hg : ∀ t, g t = (t.1, t.2, cell_value t.1 t.2 A B)) :
    List.foldl (fun C r => set_cell C r.1 r.2.1 r.2.2)
      (List.replicate A.length (List.replicate (B.headD []).length 0))
      ((tasks_grid A.length (B.headD []).length).map g)
      = naive_triple_loop A B := by
  rw [List.foldl_map]
  have hfun : (fun (C : List (List α)) (t : Nat × Nat) =>
        set_cell C (g t).1 (g t).2.1 (g t).2.2)
      = fun C t => set_cell C t.1 t.2 (cell_value t.1 t.2 A B) := by
    funext C t
    rw [hg t]
  rw [hfun]
  exact Eq.trans
    (aggregate_tasks_grid A.length (B.headD []).length
      fun i j => cell_value i j A B) rfl

/-- Core correctness of the worker-pool multiply: on non-empty operands with
matching inner dimensions and any accepted worker count, `multiply_matrices`
returns exactly the naive sequential triple-loop product. -/
lemma multiply_matrices_ok {α : Type} [Zero α] [Add α] [Mul α]
    (cpu_count : Nat) (A B : List (List α)) (np : NumProcesses)
    (hA : A ≠ []) (hB : B ≠ []) (hdim : (A.headD []).length = B.length)
    (hnp : valid_num_processes np = true) :
    multiply_matrices cpu_count A B np = .ok (naive_triple_loop A B) := by
  obtain ⟨k, hk⟩ := pool_processes_ok cpu_count np hnp
  rw [multiply_matrices, isEmpty_false_of_ne_nil hA, isEmpty_false_of_ne_nil hB,
    if_neg (by decide), if_neg (not_not_intro hdim)]
  simp only [hk]
  refine congrArg Except.ok ?_
  exact aggregate_triples A B (fun t => compute_element t.1 t.2 A B)
    fun t => rfl

/-- C1: for every pair of compatible matrices and every accepted worker count
(the default or any positive integer), the worker-pool multiply returns the
matrix computed by the naive sequential triple-nested-loop reference, cell for
cell with summation from `k = 0` upward; in particular
`[[1,2],[3,4]] * [[5,6],[7,8]] = [[19,22],[43,50]]`. -/
theorem claim_C1_worker_pool_eq_naive {α : Type} [Zero α] [Add α] [Mul α]
    (cpu_count : Nat) (A B : List (List α)) (np : NumProcesses)
    (hA : A ≠ []) (hB : B ≠ [])
    (hdim : (A.headD []).length = B.length)
    (hAr : ∀ r ∈ A, r.length = (A.headD []).length)
    (hBr : ∀ r ∈ B, r.length = (B.headD []).length)
    (hnp : valid_num_processes np = true) :
    multiply_matrices cpu_count A B np = .ok (naive_triple_loop A B)
      ∧ multiply_matrices cpu_count ([[1, 2], [3, 4]] : List (List Int))
          [[5, 6], [7, 8]] np = .ok [[19, 22], [43, 50]] := by
  constructor
  · exact multiply_matrices_ok cpu_count A B np hA hB hdim hnp
  · rw [multiply_matrices_ok cpu_count [[1, 2], [3, 4]] [[5, 6], [7, 8]] np
      (by decide) (by decide) (by decide) hnp]
    refine congrArg Except.ok ?_
    decide

theorem claim_C1_worker_pool_eq_naive_witness :
    multiply_matrices 4 ([[1, 2], [3, 4]] : List (List Int)) [[5, 6], [7, 8]]
      (.int 2) = .ok [[19, 22], [43, 50]] :=
  (claim_C1_worker_pool_eq_naive 4 [[1, 2], [3, 4]] [[5, 6], [7, 8]] (.int 2)
    (by decide) (by decide) (by decide) (by decide) (by decide) (by decide)).2

/-- Renders the log line `f"{i} {j} {result}"` written at line 89 (the file is
modelled as its list of lines, so the trailing newline is implicit).
`Nat.toDigits 10` models Python's decimal rendering of the non-negative row and
column indices; `toStr` models `str` on the element type. -/
def log_line {α : Type} (toStr : α → List Char) (i j : Nat) (v : α) :
    List Char :=
  Nat.toDigits 10 i ++ ' ' :: Nat.toDigits 10 j ++ ' ' :: toStr v

/-- Embeds `compute_and_write` (lines 75-90): compute the cell exactly as
`compute_element` does, then append one log line under the lock (the lock is
modelled by the appends being serialised in the state thread) and return the
`(i, j, result)` triple together with the updated log. -/
def compute_and_write {α : Type} [Zero α] [Add α] [Mul α]
    (toStr : α → List Char) (i j : Nat) (A B : List (List α))
    (log : List (List Char)) : (Nat × Nat × α) × List (List Char) :=
  let N := (A.headD []).length
  let result := (List.range N).foldl
    (fun result k => result + (A.getD i []).getD k 0 * (B.getD k []).getD j 0) 0
  ((i, j, result), log ++ [log_line toStr i j result])

/-- One step of the logging pool run: accumulate the next task's result triple
and thread the log state through `compute_and_write`. -/
def cw_step {α : Type} [Zero α] [Add α] [Mul α] (toStr : α → List Char)
    (A B : List (List α)) (acc : List (Nat × Nat × α) × List (List Char))
    (t : Nat × Nat) : List (Nat × Nat × α) × List (List Char) :=
  let rl := compute_and_write toStr t.1 t.2 A B acc.2
  (acc.1 ++ [rl.1], rl.2)

/-- Embeds `multiply_matrices_with_intermediate_write` (lines 92-124): same
validation as `multiply_matrices`, then the intermediate file is truncated
(line 106, `open(..., 'w')`: the prior contents `intermediate_file` are
discarded and the log restarts from `[]`) before the pool is created, every
cell is computed and logged, and the results are aggregated exactly as in
`multiply_matrices`.  Returns the output matrix together with the final log
contents. -/
def multiply_matrices_with_intermediate_write {α : Type} [Zero α] [Add α]
    [Mul α] (toStr : α → List Char) (cpu_count : Nat) (A B : List (List α))
    (intermediate_file : List (List Char)) (num_processes : NumProcesses) :
    Except MulError (List (List α) × List (List Char)) :=
  if A.isEmpty || B.isEmpty then .error .emptyOperand
  else if (A.headD []).length ≠ B.length then .error .dimensionMismatch
  else
    let rows_A := A.length
    let cols_B := (B.headD []).length
    let truncated : List (List Char) := []
    let tasks := tasks_grid rows_A cols_B
    match pool_processes cpu_count num_processes with
    | .error e => .error e
    | .ok _ =>
      let rl := tasks.foldl (cw_step toStr A B) ([], truncated)
      let C0 : List (List α) := List.replicate rows_A (List.replicate cols_B 0)
      .ok (rl.1.foldl (fun C r => set_cell C r.1 r.2.1 r.2.2) C0, rl.2)

lemma foldl_cw_step {α : Type} [Zero α] [Add α] [Mul α]
    (toStr : α → List Char) (A B : List (List α)) :
    ∀ (ts : List (Nat × Nat)) (acc : List (Nat × Nat × α))
      (lg : List (List Char)),
    ts.foldl (cw_step toStr A B) (acc, lg)
      = (acc ++ ts.map fun t => (t.1, t.2, cell_value t.1 t.2 A B),
         lg ++ ts.map fun t => log_line toStr t.1 t.2 (cell_value t.1 t.2 A B)) := by
  intro ts
  induction ts with
  | nil =>
    intro acc lg
    simp
  | cons t ts ih =>
    intro acc lg
    have hcw : cw_step toStr A B (acc, lg) t
        = (acc ++ [(t.1, t.2, cell_value t.1 t.2 A B)],
           lg ++ [log_line toStr t.1 t.2 (cell_value t.1 t.2 A B)]) := rfl
    rw [List.foldl_cons, hcw, ih]
    simp [List.append_assoc]

/-- Full evaluation of the logging multiply on a valid call: the output matrix
is the naive product, and the final log (independently of whatever the
intermediate file contained before the run) is exactly one line per task-grid
position, in task order. -/
lemma mmw_ok {α : Type} [Zero α] [Add α] [Mul α] (toStr : α → List Char)
    (cpu_count : Nat) (A B : List (List α))
    (intermediate_file : List (List Char)) (np : NumProcesses)
    (hA : A ≠ []) (hB : B ≠ []) (hdim : (A.headD []).length = B.length)
    (hnp : valid_num_processes np = true) :
    multiply_matrices_with_intermediate_write toStr cpu_count A B
        intermediate_file np
      = .ok (naive_triple_loop A B,
          (tasks_grid A.length (B.headD []).length).map
            fun t => log_line toStr t.1 t.2 (cell_value t.1 t.2 A B)) := by
  obtain ⟨k, hk⟩ := pool_processes_ok cpu_count np hnp
  rw [multiply_matrices_with_intermediate_write, isEmpty_false_of_ne_nil hA,
    isEmpty_false_of_ne_nil hB, if_neg (by decide), if_neg (not_not_intro hdim)]
  simp only [hk]
  rw [foldl_cw_step]
  simp only [List.nil_append]
  refine congrArg Except.ok ?_
  refine Prod.ext ?_ rfl
  exact aggregate_triples A B
    (fun t => (t.1, t.2, cell_value t.1 t.2 A B)) fun t => rfl

lemma tasks_grid_eq_product (m n : Nat) :
    tasks_grid m n = (List.range m) ×ˢ (List.range n) := rfl

lemma tasks_grid_length (m n : Nat) : (tasks_grid m n).length = m * n := by
  rw [tasks_grid_eq_product, List.length_product, List.length_range,
    List.length_range]

lemma tasks_grid_nodup (m n : Nat) : (tasks_grid m n).Nodup := by
  rw [tasks_grid_eq_product]
  exact List.Nodup.product (List.nodup_range m) (List.nodup_range n)

lemma mem_tasks_grid {m n i j : Nat} :
    (i, j) ∈ tasks_grid m n ↔ i < m ∧ j < n := by
  rw [tasks_grid_eq_product, List.mem_product, List.mem_range, List.mem_range]

/-- C6: on every valid call, whatever the intermediate file contained before
(it is truncated once, synchronously, before any worker runs), the logging
multiply succeeds and its final log holds exactly `rows(A) * cols(B)` lines,
one line `"i j value"` per output position, the `(i, j)` pairs pairwise
distinct and covering the full output grid. -/
theorem claim_C6_log_covers_grid {α : Type} [Zero α] [Add α] [Mul α]
    (toStr : α → List Char) (cpu_count : Nat) (A B : List (List α))
    (intermediate_file : List (List Char)) (np : NumProcesses)
    (hA : A ≠ []) (hB : B ≠ [])
    (hdim : (A.headD []).length = B.length)
    (hAr : ∀ r ∈ A, r.length = (A.headD []).length)
    (hBr : ∀ r ∈ B, r.length = (B.headD []).length)
    (hnp : valid_num_processes np = true) :
    multiply_matrices_with_intermediate_write toStr cpu_count A B
        intermediate_file np
      = .ok (naive_triple_loop A B,
          (tasks_grid A.length (B.headD []).length).map
            fun t => log_line toStr t.1 t.2 (cell_value t.1 t.2 A B))
    ∧ ((tasks_grid A.length (B.headD []).length).map
          fun t => log_line toStr t.1 t.2 (cell_value t.1 t.2 A B)).length
        = A.length * (B.headD []).length
    ∧ (tasks_grid A.length (B.headD []).length).Nodup
    ∧ ∀ i j, (i, j) ∈ tasks_grid A.length (B.headD []).length
        ↔ i < A.length ∧ j < (B.headD []).length := by
  refine ⟨mmw_ok toStr cpu_count A B intermediate_file np hA hB hdim hnp,
    ?_, tasks_grid_nodup _ _, fun i j => mem_tasks_grid⟩
  rw [List.length_map, tasks_grid_length]

theorem claim_C6_log_covers_grid_witness :
    multiply_matrices_with_intermediate_write (Nat.toDigits 10) 4
        ([[1, 2], [3, 4]] : List (List Nat)) [[5, 6], [7, 8]]
        [['s', 't', 'a', 'l', 'e']] .default
      = .ok (naive_triple_loop [[1, 2], [3, 4]] [[5, 6], [7, 8]],
          (tasks_grid 2 2).map
            fun t => log_line (Nat.toDigits 10) t.1 t.2
              (cell_value t.1 t.2 [[1, 2], [3, 4]] [[5, 6], [7, 8]])) :=
  (claim_C6_log_covers_grid (Nat.toDigits 10) 4 [[1, 2], [3, 4]]
    [[5, 6], [7, 8]] [['s', 't', 'a', 'l', 'e']] .default
    (by decide) (by decide) (by decide) (by decide) (by decide) (by decide)).1

/-- C7: on every valid call the logging multiply returns exactly the matrix
the plain worker-pool multiply returns on the same inputs; the log writes are
a side effect only. -/
theorem claim_C7_log_write_side_effect_only {α : Type} [Zero α] [Add α]
    [Mul α] (toStr : α → List Char) (cpu_count : Nat) (A B : List (List α))
    (intermediate_file : List (List Char)) (np : NumProcesses)
    (hA : A ≠ []) (hB : B ≠ [])
    (hdim : (A.headD []).length = B.length)
    (hAr : ∀ r ∈ A, r.length = (A.headD []).length)
    (hBr : ∀ r ∈ B, r.length = (B.headD []).length)
    (hnp : valid_num_processes np = true) :
    Except.map Prod.fst
        (multiply_matrices_with_intermediate_write toStr cpu_count A B
          intermediate_file np)
      = multiply_matrices cpu_count A B np := by
  rw [mmw_ok toStr cpu_count A B intermediate_file np hA hB hdim hnp,
    multiply_matrices_ok cpu_count A B np hA hB hdim hnp]
  rfl

theorem claim_C7_log_write_side_effect_only_witness :
    Except.map Prod.fst
        (multiply_matrices_with_intermediate_write (Nat.toDigits 10) 4
          ([[1, 2], [3, 4]] : List (List Nat)) [[5, 6], [7, 8]] [] (.int 3))
      = multiply_matrices 4 [[1, 2], [3, 4]] [[5, 6], [7, 8]] (.int 3) :=
  claim_C7_log_write_side_effect_only (Nat.toDigits 10) 4 [[1, 2], [3, 4]]
    [[5, 6], [7, 8]] [] (.int 3)
    (by decide) (by decide) (by decide) (by decide) (by decide) (by decide)

/-- Observable events of the multiplier actor `multiply_matrices_async`
(lines 153-168): a pull from `queue_A`, a pull from `queue_B`, an invocation
of the multiply on two pulled matrices, and a push onto `result_queue`.
`Option.none` is the sentinel (`None`). -/
inductive Ev (α : Type) where
  | pullA (v : Option (List (List α)))
  | pullB (v : Option (List (List α)))
  | mul (A B : List (List α))
  | push (v : Option (List (List α)))
deriving DecidableEq

/-- Embeds the multiplier actor `multiply_matrices_async` (lines 153-168) as
the event trace it produces when its two input channels deliver the given
sequences of values.  Each loop iteration pulls from `queue_A` then from
`queue_B` (lines 160-161), only then checks for the sentinel (line 162); on a
sentinel it pushes one sentinel and terminates (lines 163, 167); otherwise it
invokes `multiply_matrices` with the default worker count (line 164) and
pushes the product (line 165).  An exhausted channel means a pull that blocks
forever, so the trace ends there with no sentinel pushed; an exception
escaping `multiply_matrices` kills the process, also ending the trace. -/
def multiply_matrices_async {α : Type} [Zero α] [Add α] [Mul α]
    (cpu_count : Nat) :
    List (Option (List (List α))) → List (Option (List (List α))) →
    List (Ev α)
  | a :: queue_A, b :: queue_B =>
    Ev.pullA a :: Ev.pullB b ::
      (match a, b with
       | some A, some B =>
         match multiply_matrices cpu_count A B .default with
         | .ok C => Ev.mul A B :: Ev.push (some C)
             :: multiply_matrices_async cpu_count queue_A queue_B
         | .error _ => [Ev.mul A B]
       | _, _ => [Ev.push Option.none])
  | a :: _, [] => [Ev.pullA a]
  | [], _ => []

/-- The sequence of values the actor pushes onto `result_queue`, read off its
event trace. -/
def result_pushes {α : Type} : List (Ev α) → List (Option (List (List α)))
  | [] => []
  | Ev.push v :: tr => v :: result_pushes tr
  | _ :: tr => result_pushes tr

def is_pull {α : Type} : Ev α → Bool
  | Ev.pullA _ => true
  | Ev.pullB _ => true
  | _ => false

def is_mul {α : Type} : Ev α → Bool
  | Ev.mul _ _ => true
  | _ => false

def sentinel_pull {α : Type} : Ev α → Bool
  | Ev.pullA Option.none => true
  | Ev.pullB Option.none => true
  | _ => false

/-- Formalises C2 exactly as stated: from the first event that pulls a
sentinel value onward, no further pull event of any kind occurs. -/
def stops_pulling_at_sentinel {α : Type} : List (Ev α) → Bool
  | [] => true
  | e :: rest =>
    if sentinel_pull e then rest.all fun x => ! is_pull x
    else stops_pulling_at_sentinel rest

/-- Embeds the draining consumer loop of lines 186-193: count the matrices
pulled from `result_queue` before the first sentinel. -/
def drain_count {α : Type} : List (Option (List (List α))) → Nat
  | [] => 0
  | Option.none :: _ => 0
  | some _ :: rest => drain_count rest + 1

/-- C2 (amended): whenever a pulled value is the sentinel, the actor still
completes that iteration's fixed A-then-B pull pair (a sentinel pulled from
`queue_A` is followed by the pull from `queue_B` already part of the same
iteration, lines 160-161), then performs no pull in any later iteration,
pushes exactly one sentinel onto the result channel, terminates, and never
invokes the multiply on a sentinel (no `mul` event occurs at all). -/
theorem claim_C2_sentinel_terminates {α : Type} [Zero α] [Add α] [Mul α]
    (cpu_count : Nat) (a b : Option (List (List α)))
    (queue_A queue_B : List (Option (List (List α))))
    (h : a = Option.none ∨ b = Option.none) :
    multiply_matrices_async cpu_count (a :: queue_A) (b :: queue_B)
        = [Ev.pullA a, Ev.pullB b, Ev.push Option.none]
      ∧ result_pushes (multiply_matrices_async cpu_count
          (a :: queue_A) (b :: queue_B)) = [Option.none]
      ∧ (multiply_matrices_async cpu_count (a :: queue_A) (b :: queue_B)).all
          (fun e => ! is_mul e) = true := by
  have hEq : multiply_matrices_async cpu_count (a :: queue_A) (b :: queue_B)
      = [Ev.pullA a, Ev.pullB b, Ev.push Option.none] := by
    rcases h with rfl | rfl
    · cases b <;> rfl
    · cases a <;> rfl
  refine ⟨hEq, ?_, ?_⟩
  · rw [hEq]
    rfl
  · rw [hEq]
    rfl

theorem claim_C2_sentinel_terminates_witness :
    multiply_matrices_async 1 [Option.none] [some [[(1 : Int)]]]
        = [Ev.pullA Option.none, Ev.pullB (some [[1]]), Ev.push Option.none]
      ∧ result_pushes (multiply_matrices_async 1 [Option.none]
          [some [[(1 : Int)]]]) = [Option.none]
      ∧ (multiply_matrices_async 1 [Option.none] [some [[(1 : Int)]]]).all
          (fun e => ! is_mul e) = true :=
  claim_C2_sentinel_terminates 1 Option.none (some [[1]]) [] []
    (Or.inl rfl)

/-- C2 as literally stated is false: when the value pulled from `queue_A` is
the sentinel, the actor does not immediately stop pulling — line 161 still
pulls one value from `queue_B` before the sentinel check of line 162, so a
further pull event follows the sentinel pull. -/
theorem claim_C2_counterexample :
    multiply_matrices_async 1 [Option.none] [some [[(1 : Int)]]]
        = [Ev.pullA Option.none, Ev.pullB (some [[1]]), Ev.push Option.none]
      ∧ stops_pulling_at_sentinel
          (multiply_matrices_async 1 [Option.none] [some [[(1 : Int)]]])
        = false :=
  ⟨rfl, rfl⟩

/-- A square `S × S` matrix. -/
def is_square {α : Type} (S : Nat) (A : List (List α)) : Prop :=
  A.length = S ∧ ∀ r ∈ A, r.length = S

lemma multiply_square_ok {α : Type} [Zero α] [Add α] [Mul α]
    (cpu_count S : Nat) (hS : 1 ≤ S) (A B : List (List α))
    (hA : is_square S A) (hB : is_square S B) :
    multiply_matrices cpu_count A B .default = .ok (naive_triple_loop A B) := by
  obtain ⟨hAl, hAr⟩ := hA
  obtain ⟨hBl, hBr⟩ := hB
  have hAne : A ≠ [] := by
    intro h
    rw [h] at hAl
    simp at hAl
    omega
  have hBne : B ≠ [] := by
    intro h
    rw [h] at hBl
    simp at hBl
    omega
  have hhead : (A.headD []).length = B.length := by
    cases A with
    | nil => exact absurd rfl hAne
    | cons r t =>
      show r.length = B.length
      rw [hAr r (List.mem_cons_self r t), hBl]
  exact multiply_matrices_ok cpu_count A B .default hAne hBne hhead rfl

/-- Embeds `generate_random_matrix` (lines 132-137); `sample k` stands for the
`k`-th value drawn from `random.random()`, consumed row-major. -/
def generate_random_matrix {α : Type} (size : Nat) (sample : Nat → α) :
    List (List α) :=
  (List.range size).map fun i =>
    (List.range size).map fun j => sample (i * size + j)

/-- Embeds the generator actor `generate_random_matrix_process`
(lines 139-151) as the sequence of values it pushes onto its queue: exactly
`num_matrices` matrices in generation order (the `t`-th one consuming the next
`size * size` samples of its random stream), then exactly one sentinel. -/
def generate_random_matrix_process {α : Type} (size num_matrices : Nat)
    (sample : Nat → α) : List (Option (List (List α))) :=
  ((List.range num_matrices).map fun t =>
    some (generate_random_matrix size fun k => sample (t * (size * size) + k)))
    ++ [Option.none]

/-- Embeds `async_multiplication_demo` (lines 170-198): the completed-count
reported by the draining consumer after wiring both generators into the
multiplier actor. -/
def async_multiplication_demo {α : Type} [Zero α] [Add α] [Mul α]
    (cpu_count size num_matrices : Nat) (sampleA sampleB : Nat → α) : Nat :=
  drain_count (result_pushes (multiply_matrices_async cpu_count
    (generate_random_matrix_process size num_matrices sampleA)
    (generate_random_matrix_process size num_matrices sampleB)))

/-- The multiplier actor on two channels that each deliver a list of valid
square matrices followed by one sentinel pushes exactly the pairwise products
in order, followed by one sentinel. -/
lemma actor_pushes {α : Type} [Zero α] [Add α] [Mul α]
    (cpu_count S : Nat) (hS : 1 ≤ S) :
    ∀ (As Bs : List (List (List α))), As.length = Bs.length →
    (∀ X ∈ As, is_square S X) → (∀ X ∈ Bs, is_square S X) →
    result_pushes (multiply_matrices_async cpu_count
        (As.map some ++ [Option.none]) (Bs.map some ++ [Option.none]))
      = (List.zipWith (fun A B => naive_triple_loop A B) As Bs).map some
        ++ [Option.none] := by
  intro As
  induction As with
  | nil =>
    intro Bs hlen hAs hBs
    have hBs0 : Bs = [] := List.length_eq_zero.mp hlen.symm
    subst hBs0
    rfl
  | cons A As ih =>
    intro Bs hlen hAs hBs
    cases Bs with
    | nil => simp at hlen
    | cons B Bs =>
      have hmul := multiply_square_ok cpu_count S hS A B
        (hAs A (List.mem_cons_self A As)) (hBs B (List.mem_cons_self B Bs))
      simp only [List.map_cons, List.cons_append]
      rw [show multiply_matrices_async cpu_count
            (some A :: (As.map some ++ [Option.none]))
            (some B :: (Bs.map some ++ [Option.none]))
          = Ev.pullA (some A) :: Ev.pullB (some B) :: Ev.mul A B
            :: Ev.push (some (naive_triple_loop A B))
            :: multiply_matrices_async cpu_count
              (As.map some ++ [Option.none]) (Bs.map some ++ [Option.none])
        by rw [multiply_matrices_async]; rw [hmul]]
      rw [show ∀ tr : List (Ev α),
            result_pushes (Ev.pullA (some A) :: Ev.pullB (some B)
              :: Ev.mul A B :: Ev.push (some (naive_triple_loop A B)) :: tr)
            = some (naive_triple_loop A B) :: result_pushes tr
        from fun tr => rfl]
      rw [ih Bs (by simpa using hlen)
        (fun X hX => hAs X (List.mem_cons_of_mem A hX))
        (fun X hX => hBs X (List.mem_cons_of_mem B hX))]
      rfl

lemma drain_count_map_some {α : Type} (l : List (List (List α)))
    (rest : List (Option (List (List α)))) :
    drain_count (l.map some ++ Option.none :: rest) = l.length := by
  induction l with
  | nil => rfl
  | cons x xs ih => simp [drain_count, ih]

lemma generate_random_matrix_is_square {α : Type} (S : Nat)
    (sample : Nat → α) : is_square S (generate_random_matrix S sample) := by
  constructor
  · simp [generate_random_matrix]
  · intro r hr
    simp only [generate_random_matrix, List.mem_map] at hr
    obtain ⟨i, _, rfl⟩ := hr
    simp

lemma generator_as_map_some {α : Type} (S M : Nat) (sample : Nat → α) :
    generate_random_matrix_process S M sample
      = ((List.range M).map fun t =>
          generate_random_matrix S fun k => sample (t * (S * S) + k)).map some
        ++ [Option.none] := by
  rw [List.map_map]
  rfl

/-- C8: for every size `S ≥ 1` and count `M`, each generator actor pushes
exactly `M` `S × S` matrices in generation order followed by exactly one
sentinel; the multiplier actor pushes exactly the `M` pairwise products
followed by one sentinel; and the draining consumer reports a completed-count
of exactly `M`. -/
theorem claim_C8_pipeline_counts {α : Type} [Zero α] [Add α] [Mul α]
    (cpu_count S M : Nat) (sampleA sampleB : Nat → α) (hS : 1 ≤ S) :
    (generate_random_matrix_process S M sampleA).length = M + 1
    ∧ drain_count (generate_random_matrix_process S M sampleA) = M
    ∧ (generate_random_matrix_process S M sampleB).length = M + 1
    ∧ drain_count (generate_random_matrix_process S M sampleB) = M
    ∧ result_pushes (multiply_matrices_async cpu_count
          (generate_random_matrix_process S M sampleA)
          (generate_random_matrix_process S M sampleB))
        = (List.zipWith (fun A B => naive_triple_loop A B)
            ((List.range M).map fun t =>
              generate_random_matrix S fun k => sampleA (t * (S * S) + k))
            ((List.range M).map fun t =>
              generate_random_matrix S fun k => sampleB (t * (S * S) + k))).map
              some
          ++ [Option.none]
    ∧ async_multiplication_demo cpu_count S M sampleA sampleB = M := by
  have hlenA : ((List.range M).map fun t =>
      generate_random_matrix S fun k => sampleA (t * (S * S) + k)).length
      = M := by simp
  have hlenB : ((List.range M).map fun t =>
      generate_random_matrix S fun k => sampleB (t * (S * S) + k)).length
      = M := by simp
  have hsqA : ∀ X ∈ (List.range M).map fun t =>
      generate_random_matrix S fun k => sampleA (t * (S * S) + k),
      is_square S X := by
    intro X hX
    simp only [List.mem_map] at hX
    obtain ⟨t, _, rfl⟩ := hX
    exact generate_random_matrix_is_square S _
  have hsqB : ∀ X ∈ (List.range M).map fun t =>
      generate_random_matrix S fun k => sampleB (t * (S * S) + k),
      is_square S X := by
    intro X hX
    simp only [List.mem_map] at hX
    obtain ⟨t, _, rfl⟩ := hX
    exact generate_random_matrix_is_square S _
  have hpush : result_pushes (multiply_matrices_async cpu_count
      (generate_random_matrix_process S M sampleA)
      (generate_random_matrix_process S M sampleB))
      = (List.zipWith (fun A B => naive_triple_loop A B)
          ((List.range M).map fun t =>
            generate_random_matrix S fun k => sampleA (t * (S * S) + k))
          ((List.range M).map fun t =>
            generate_random_matrix S fun k => sampleB (t * (S * S) + k))).map
            some
        ++ [Option.none] := by
    rw [generator_as_map_some S M sampleA, generator_as_map_some S M sampleB]
    exact actor_pushes cpu_count S hS _ _ (by rw [hlenA, hlenB]) hsqA hsqB
  refine ⟨?_, ?_, ?_, ?_, hpush, ?_⟩
  · simp [generate_random_matrix_process]
  · rw [generator_as_map_some S M sampleA]
    exact Eq.trans (drain_count_map_some _ []) hlenA
  · simp [generate_random_matrix_process]
  · rw [generator_as_map_some S M sampleB]
    exact Eq.trans (drain_count_map_some _ []) hlenB
  · rw [async_multiplication_demo, hpush]
    refine Eq.trans (drain_count_map_some _ []) ?_
    rw [List.length_zipWith, hlenA, hlenB]
    exact Nat.min_self M

theorem claim_C8_pipeline_counts_witness :
    async_multiplication_demo 1 2 3 (fun n => (n : Int)) (fun n => (n : Int))
      = 3 :=
  (claim_C8_pipeline_counts 1 2 3 (fun n => (n : Int)) (fun n => (n : Int))
    (by decide)).2.2.2.2.2

/-- Python's whitespace set (ASCII) used by `str.strip()` and `str.split()`. -/
def isWs (c : Char) : Bool :=
  c == ' ' || c == '\t' || c == '\n' || c == '\r' || c == '\x0b' || c == '\x0c'

/-- Embeds `str.strip()` on a line modelled as its character list: drop
whitespace from the front, then from the back. -/
def py_strip (l : List Char) : List Char :=
  ((l.dropWhile isWs).reverse.dropWhile isWs).reverse

/-- Worker for `py_split`: returns the token currently being accumulated at
the front together with the finished chunks after it (empty chunks arise
between adjacent separators and are filtered out by `py_split`). -/
def py_split_aux : List Char → List Char × List (List Char)
  | [] => ([], [])
  | c :: rest =>
    let r := py_split_aux rest
    if isWs c then ([], r.1 :: r.2)
    else (c :: r.1, r.2)

/-- Embeds no-argument `str.split()`: the maximal whitespace-free runs of the
line, with empty runs discarded. -/
def py_split (l : List Char) : List (List Char) :=
  ((py_split_aux l).1 :: (py_split_aux l).2).filter fun t => ! t.isEmpty

/-- Embeds `sep.join(...)` on character-list strings. -/
def py_join (sep : List Char) : List (List Char) → List Char
  | [] => []
  | [t] => t
  | t :: ts => t ++ sep ++ py_join sep ts

/-- Embeds `write_matrix` (lines 21-30): the written file is modelled as its
list of lines (the `'\n'` terminator of line 30 is the line boundary); each
line joins the row's rendered values with single spaces, `toStr` standing for
Python's `str` on the element type. -/
def write_matrix {α : Type} (toStr : α → List Char)
    (matrix : List (List α)) : List (List Char) :=
  matrix.map fun row => py_join [' '] (row.map toStr)

/-- Embeds `read_matrix` (lines 7-19): keep the lines that are non-blank
after stripping, and turn each into a row by splitting on whitespace and
parsing every token, `parse` standing for Python's `float`. -/
def read_matrix {α : Type} (parse : List Char → α)
    (lines : List (List Char)) : List (List α) :=
  (lines.filter fun line => ! (py_strip line).isEmpty).map
    fun line => (py_split (py_strip line)).map parse

lemma py_split_aux_token (t : List Char) (l : List Char)
    (ht : ∀ c ∈ t, isWs c = false) :
    py_split_aux (t ++ l)
      = (t ++ (py_split_aux l).1, (py_split_aux l).2) := by
  induction t with
  | nil => simp
  | cons c t ih =>
    rw [List.cons_append,
      show py_split_aux (c :: (t ++ l))
          = if isWs c
            then ([], (py_split_aux (t ++ l)).1 :: (py_split_aux (t ++ l)).2)
            else (c :: (py_split_aux (t ++ l)).1, (py_split_aux (t ++ l)).2)
        from rfl,
      ih fun x hx => ht x (List.mem_cons_of_mem c hx),
      ht c (List.mem_cons_self c t)]
    simp

lemma py_split_aux_ws (c : Char) (l : List Char) (hc : isWs c = true) :
    py_split_aux (c :: l)
      = ([], (py_split_aux l).1 :: (py_split_aux l).2) := by
  simp [py_split_aux, hc]

lemma py_split_single_token (t : List Char) (htne : t ≠ [])
    (htc : ∀ c ∈ t, isWs c = false) : py_split t = [t] := by
  have haux : py_split_aux t = (t, []) := by
    have := py_split_aux_token t [] htc
    simp only [py_split_aux, List.append_nil] at this
    exact this
  rw [py_split, haux]
  simp [List.filter_cons, isEmpty_false_of_ne_nil htne]

/-- Splitting the single-space join of non-empty whitespace-free tokens
recovers exactly the tokens. -/
lemma py_split_py_join (toks : List (List Char)) (hne : toks ≠ [])
    (h : ∀ t ∈ toks, t ≠ [] ∧ ∀ c ∈ t, isWs c = false) :
    py_split (py_join [' '] toks) = toks := by
  induction toks with
  | nil => exact absurd rfl hne
  | cons t ts ih =>
    obtain ⟨htne, htc⟩ := h t (List.mem_cons_self t ts)
    cases ts with
    | nil => exact py_split_single_token t htne htc
    | cons t2 ts2 =>
      have hjoin : py_join [' '] (t :: t2 :: ts2)
          = t ++ [' '] ++ py_join [' '] (t2 :: ts2) := rfl
      rw [hjoin, List.append_assoc]
      simp only [List.cons_append, List.nil_append]
      rw [py_split, py_split_aux_token t _ htc,
        py_split_aux_ws ' ' _ (by decide)]
      simp only [List.append_nil]
      rw [List.filter_cons]
      rw [show (! t.isEmpty) = true by rw [isEmpty_false_of_ne_nil htne]; rfl]
      simp only [if_pos rfl, reduceIte]
      exact congrArg (t :: ·)
        (ih (List.cons_ne_nil t2 ts2)
          fun x hx => h x (List.mem_cons_of_mem t hx))

lemma py_strip_of_ends (l : List Char)
    (hhead : ∀ c, l.head? = some c → isWs c = false)
    (hlast : ∀ c, l.getLast? = some c → isWs c = false) :
    py_strip l = l := by
  have h1 : l.dropWhile isWs = l := by
    cases l with
    | nil => rfl
    | cons c t =>
      rw [List.dropWhile_cons, hhead c rfl]
      simp
  rw [py_strip, h1]
  have h2 : l.reverse.dropWhile isWs = l.reverse := by
    cases hrev : l.reverse with
    | nil => rfl
    | cons c t =>
      rw [List.dropWhile_cons]
      have hcl : l.getLast? = some c := by
        rw [← List.head?_reverse, hrev]
        rfl
      rw [hlast c hcl]
      simp
  rw [h2, List.reverse_reverse]

lemma py_join_ne_nil (toks : List (List Char)) (hne : toks ≠ [])
    (h : ∀ t ∈ toks, t ≠ []) : py_join [' '] toks ≠ [] := by
  cases toks with
  | nil => exact absurd rfl hne
  | cons t ts =>
    have htne := h t (List.mem_cons_self t ts)
    cases ts with
    | nil => exact htne
    | cons t2 ts2 =>
      cases t with
      | nil => exact absurd rfl htne
      | cons c r => simp [py_join]

lemma py_join_head_not_ws (toks : List (List Char)) (hne : toks ≠ [])
    (h : ∀ t ∈ toks, t ≠ [] ∧ ∀ c ∈ t, isWs c = false) :
    ∀ c, (py_join [' '] toks).head? = some c → isWs c = false := by
  cases toks with
  | nil => exact absurd rfl hne
  | cons t ts =>
    obtain ⟨htne, htc⟩ := h t (List.mem_cons_self t ts)
    intro c hc
    have hhd : (py_join [' '] (t :: ts)).head? = t.head? := by
      cases ts with
      | nil => rfl
      | cons t2 ts2 =>
        cases t with
        | nil => exact absurd rfl htne
        | cons d r => rfl
    rw [hhd] at hc
    exact htc c (List.mem_of_mem_head? (by rw [hc]; exact rfl))

lemma py_join_last_not_ws (toks : List (List Char)) (hne : toks ≠ [])
    (h : ∀ t ∈ toks, t ≠ [] ∧ ∀ c ∈ t, isWs c = false) :
    ∀ c, (py_join [' '] toks).getLast? = some c → isWs c = false := by
  induction toks with
  | nil => exact absurd rfl hne
  | cons t ts ih =>
    cases ts with
    | nil =>
      intro c hc
      have hc' : t.getLast? = some c := hc
      exact (h t (List.mem_cons_self t [])).2 c
        (List.mem_of_mem_getLast? (by rw [hc']; exact rfl))
    | cons t2 ts2 =>
      intro c hc
      have hjoin : py_join [' '] (t :: t2 :: ts2)
          = (t ++ [' ']) ++ py_join [' '] (t2 :: ts2) := by
        rw [show py_join [' '] (t :: t2 :: ts2)
            = t ++ [' '] ++ py_join [' '] (t2 :: ts2) from rfl]
      rw [hjoin, List.getLast?_append] at hc
      have hj : py_join [' '] (t2 :: ts2) ≠ [] :=
        py_join_ne_nil (t2 :: ts2) (List.cons_ne_nil t2 ts2)
          fun x hx => (h x (List.mem_cons_of_mem t hx)).1
      obtain ⟨d, hd⟩ : ∃ d, (py_join [' '] (t2 :: ts2)).getLast? = some d := by
        cases hgl : (py_join [' '] (t2 :: ts2)).getLast? with
        | none => exact absurd (List.getLast?_eq_none_iff.mp hgl) hj
        | some d => exact ⟨d, rfl⟩
      rw [hd] at hc
      have hdc : d = c := Option.some.inj hc
      rw [hdc] at hd
      exact ih (List.cons_ne_nil t2 ts2)
        (fun x hx => h x (List.mem_cons_of_mem t hx)) c hd

/-- C9: writing any Matrix (non-empty rows, renderings non-empty and
whitespace-free, parsing a rendering recovering the value — the
"floating-point text-formatting precision" premise, exact for Python's
`str`/`float` pair) and reading the file back yields the original matrix. -/
theorem claim_C9_write_read_round_trip {α : Type} (toStr : α → List Char)
    (parse : List Char → α) (matrix : List (List α))
    (hrow : ∀ row ∈ matrix, row ≠ [])
    (htok : ∀ row ∈ matrix, ∀ x ∈ row,
      toStr x ≠ [] ∧ ∀ c ∈ toStr x, isWs c = false)
    (hparse : ∀ row ∈ matrix, ∀ x ∈ row, parse (toStr x) = x) :
    read_matrix parse (write_matrix toStr matrix) = matrix := by
  rw [read_matrix, write_matrix]
  have hline : ∀ row ∈ matrix, py_strip (py_join [' '] (row.map toStr))
      = py_join [' '] (row.map toStr) := by
    intro row hr
    have htoks : ∀ t ∈ row.map toStr, t ≠ [] ∧ ∀ c ∈ t, isWs c = false := by
      intro t ht
      rw [List.mem_map] at ht
      obtain ⟨x, hx, rfl⟩ := ht
      exact htok row hr x hx
    have hmne : row.map toStr ≠ [] := by
      rw [Ne, List.map_eq_nil_iff]
      exact hrow row hr
    exact py_strip_of_ends _ (py_join_head_not_ws _ hmne htoks)
      (py_join_last_not_ws _ hmne htoks)
  have hfilter : (matrix.map fun row => py_join [' '] (row.map toStr)).filter
      (fun line => ! (py_strip line).isEmpty)
      = matrix.map fun row => py_join [' '] (row.map toStr) := by
    rw [List.filter_eq_self]
    intro line hl
    rw [List.mem_map] at hl
    obtain ⟨row, hr, rfl⟩ := hl
    rw [hline row hr, isEmpty_false_of_ne_nil (py_join_ne_nil _
      (by rw [Ne, List.map_eq_nil_iff]; exact hrow row hr)
      (fun t ht => by
        rw [List.mem_map] at ht
        obtain ⟨x, hx, rfl⟩ := ht
        exact (htok row hr x hx).1))]
    rfl
  rw [hfilter, List.map_map]
  have hid : ∀ row ∈ matrix,
      ((fun line => (py_split (py_strip line)).map parse) ∘
        fun row => py_join [' '] (row.map toStr)) row = row := by
    intro row hr
    have htoks : ∀ t ∈ row.map toStr, t ≠ [] ∧ ∀ c ∈ t, isWs c = false := by
      intro t ht
      rw [List.mem_map] at ht
      obtain ⟨x, hx, rfl⟩ := ht
      exact htok row hr x hx
    have hmne : row.map toStr ≠ [] := by
      rw [Ne, List.map_eq_nil_iff]
      exact hrow row hr
    show (py_split (py_strip (py_join [' '] (row.map toStr)))).map parse = row
    rw [hline row hr, py_split_py_join (row.map toStr) hmne htoks,
      List.map_map]
    have : ∀ x ∈ row, (parse ∘ toStr) x = id x := fun x hx => hparse row hr x hx
    rw [List.map_congr_left this, List.map_id]
  exact Eq.trans (List.map_congr_left hid) (List.map_id matrix)

/-- Decimal parser inverse to `Nat.toDigits 10`, standing in for Python's
`float` on the witness values. -/
def parse_nat (l : List Char) : Nat :=
  l.foldl (fun acc c => acc * 10 + (c.toNat - 48)) 0

theorem claim_C9_write_read_round_trip_witness :
    read_matrix parse_nat
        (write_matrix (Nat.toDigits 10) ([[1, 2], [3, 4]] : List (List Nat)))
      = [[1, 2], [3, 4]] :=
  claim_C9_write_read_round_trip (Nat.toDigits 10) parse_nat [[1, 2], [3, 4]]
    (by decide) (by decide) (by decide)

end MatrixMultiplicator
